import Mathlib

/-!
Shallow embedding of the grido falling-block puzzle engine (src/main.rs).

Modelling conventions:
* i16/i32 coordinates and deltas are modelled as Int; u8/u32 counters as Nat.
  The game board is 16 x 12, so the i16 coordinate arithmetic never comes
  near the overflow boundary in any situation a claim probes.
* Rust u8 subtraction `n - 1` is checked arithmetic (the build that the
  repository actually runs, the default debug profile, panics on underflow).
  Where an underflow is reachable (see TileType.explode on Centerpiece(0))
  the function is embedded as Option-valued, with none as the panic.
* The u8 level counter in fn level overflows only beyond score
  100 * (1 + 2 + ... + 255) = 3264000; theorems about level carry that bound
  so that they speak only about inputs on which the Nat model provably
  agrees with the source.
* Vec-mutating loops are embedded as structural recursions or folds that
  append in exactly the source's push order.
-/

set_option maxRecDepth 8000

namespace Grido

/-- Pen is the tri-state line weight of src/main.rs (None/Thin/Thik). -/
inductive Pen where
  | none
  | thin
  | thik
deriving DecidableEq, Fintype

/-- Pen::combine, arm for arm. -/
def Pen.combine : Pen → Pen → Pen
  | .none, p => p
  | p, .none => p
  | .thik, _ => .thik
  | _, .thik => .thik
  | .thin, .thin => .thin

/-- FieldDrawing: four independent directional pens of one grid cell. -/
structure FieldDrawing where
  up : Pen
  right : Pen
  down : Pen
  left : Pen
deriving DecidableEq

namespace Grid

/-- Grid::render_field_drawing: the full 81-entry glyph table, transcribed
arm for arm from the source match. -/
def render_field_drawing (dw : FieldDrawing) : String :=
  match dw.up, dw.right, dw.down, dw.left with
  | .none, .none, .none, .none => " "

  | .none, .none, .none, .thin => "╴"
  | .none, .none, .thin, .none => "╷"
  | .none, .none, .thin, .thin => "┐"
  | .none, .thin, .none, .none => "╶"
  | .none, .thin, .none, .thin => "─"
  | .none, .thin, .thin, .none => "┌"
  | .none, .thin, .thin, .thin => "┬"
  | .thin, .none, .none, .none => "╵"
  | .thin, .none, .none, .thin => "┘"
  | .thin, .none, .thin, .none => "│"
  | .thin, .none, .thin, .thin => "┤"
  | .thin, .thin, .none, .none => "└"
  | .thin, .thin, .none, .thin => "┴"
  | .thin, .thin, .thin, .none => "├"
  | .thin, .thin, .thin, .thin => "┼"

  | .none, .none, .none, .thik => "╸"
  | .none, .none, .thik, .none => "╻"
  | .none, .none, .thik, .thik => "┓"
  | .none, .thik, .none, .none => "╺"
  | .none, .thik, .none, .thik => "━"
  | .none, .thik, .thik, .none => "┏"
  | .none, .thik, .thik, .thik => "┳"
  | .thik, .none, .none, .none => "╹"
  | .thik, .none, .none, .thik => "┛"
  | .thik, .none, .thik, .none => "┃"
  | .thik, .none, .thik, .thik => "┫"
  | .thik, .thik, .none, .none => "┗"
  | .thik, .thik, .none, .thik => "┻"
  | .thik, .thik, .thik, .none => "┣"
  | .thik, .thik, .thik, .thik => "╋"

  | .none, .none, .thik, .thin => "┒"
  | .none, .none, .thin, .thik => "┑"
  | .none, .thik, .none, .thin => "╼"
  | .none, .thik, .thik, .thin => "┲"
  | .none, .thik, .thin, .none => "┍"
  | .none, .thik, .thin, .thik => "┯"
  | .none, .thik, .thin, .thin => "┮"
  | .none, .thin, .none, .thik => "╾"
  | .none, .thin, .thik, .none => "┎"
  | .none, .thin, .thik, .thik => "┱"
  | .none, .thin, .thik, .thin => "┰"
  | .none, .thin, .thin, .thik => "┭"
  | .thik, .none, .none, .thin => "┚"
  | .thik, .none, .thik, .thin => "┨"
  | .thik, .none, .thin, .none => "╿"
  | .thik, .none, .thin, .thik => "┩"
  | .thik, .none, .thin, .thin => "┦"
  | .thik, .thik, .none, .thin => "┺"
  | .thik, .thik, .thik, .thin => "╊"
  | .thik, .thik, .thin, .none => "┡"
  | .thik, .thik, .thin, .thik => "╇"
  | .thik, .thik, .thin, .thin => "╄"
  | .thik, .thin, .none, .none => "┖"
  | .thik, .thin, .none, .thik => "┹"
  | .thik, .thin, .none, .thin => "┸"
  | .thik, .thin, .thik, .none => "┠"
  | .thik, .thin, .thik, .thik => "╉"
  | .thik, .thin, .thik, .thin => "╂"
  | .thik, .thin, .thin, .none => "┞"
  | .thik, .thin, .thin, .thik => "╃"
  | .thik, .thin, .thin, .thin => "╀"
  | .thin, .none, .none, .thik => "┙"
  | .thin, .none, .thik, .none => "╽"
  | .thin, .none, .thik, .thik => "┪"
  | .thin, .none, .thik, .thin => "┧"
  | .thin, .none, .thin, .thik => "┥"
  | .thin, .thik, .none, .none => "┕"
  | .thin, .thik, .none, .thik => "┷"
  | .thin, .thik, .none, .thin => "┶"
  | .thin, .thik, .thik, .none => "┢"
  | .thin, .thik, .thik, .thik => "╈"
  | .thin, .thik, .thin, .thin => "┾"
  | .thin, .thik, .thik, .thin => "╆"
  | .thin, .thik, .thin, .none => "┝"
  | .thin, .thik, .thin, .thik => "┿"
  | .thin, .thin, .none, .thik => "┵"
  | .thin, .thin, .thik, .none => "┟"
  | .thin, .thin, .thik, .thik => "╅"
  | .thin, .thin, .thik, .thin => "╁"
  | .thin, .thin, .thin, .thik => "┽"

end Grid

/-- Cumulative score threshold of level L: 100 * (1 + 2 + ... + L),
the running value of the variable base in fn level. -/
def cumul : Nat → Nat
  | 0 => 0
  | l + 1 => cumul l + (l + 1) * 100

/-- The while loop of fn level: while base < score, lvl += 1 and
base += lvl * 100. -/
def levelLoop (score base lvl : Nat) : Nat :=
  if base < score then levelLoop score (base + (lvl + 1) * 100) (lvl + 1) else lvl
termination_by score - base
decreasing_by
  simp_wf
  omega

/-- fn level(score), with base and lvl starting at 0. -/
def level (score : Nat) : Nat :=
  levelLoop score 0 0

/-- LiquidType from src/main.rs. -/
inductive LiquidType where
  | acid
  | glue
deriving DecidableEq

/-- TileType from src/main.rs; the u8 payloads become Nat. -/
inductive TileType where
  | plain (n : Nat)
  | permanent
  | killer (n : Nat)
  | picker
  | centerpiece (n : Nat)
  | whopper (n : Nat)
  | flask (l : LiquidType)
  | spillage (l : LiquidType)
  | plus
  | minus
deriving DecidableEq

/-- ExplodeAction from src/main.rs; Box becomes plain recursion. -/
inductive ExplodeAction where
  | remove
  | convert (tt : TileType)
  | spill (l : LiquidType)
  | plus
  | minus
  | complex (a b : ExplodeAction)
deriving DecidableEq

/-- Checked u8 decrement: the Rust expression n - 1 under the default
(debug) overflow-checking profile; none is the underflow panic. -/
def checkedPred (n : Nat) : Option Nat :=
  if n = 0 then none else some (n - 1)

namespace TileType

/-- TileType::drop. Killer(_) degrades to Plain(0); everything else passes
through unchanged. -/
def drop : TileType → Option TileType
  | .killer _ => some (.plain 0)
  | tt => some tt

/-- TileType::explode, arm for arm. Each arm computing a u8 decrement goes
through checkedPred, so (centerpiece 0).explode is none: the source falls
into the Centerpiece(n) arm there and computes 0 - 1 on a u8. -/
def explode : TileType → Option ExplodeAction
  | .plain 0 => some .remove
  | .plain n => (checkedPred n).map (fun m => .convert (.plain m))
  | .centerpiece 1 => some .remove
  | .centerpiece n => (checkedPred n).map (fun m => .convert (.centerpiece m))
  | .whopper n => some (.convert (.centerpiece n))
  | .flask l => some (.spill l)
  | .plus => some (.complex .remove .plus)
  | .minus => some (.complex .remove .minus)
  | _ => some .remove

/-- TileType::is_plain. -/
def is_plain : TileType → Bool
  | .plain _ => true
  | .flask _ => true
  | .plus => true
  | .minus => true
  | _ => false

/-- TileType::is_solid. -/
def is_solid : TileType → Bool
  | .spillage _ => false
  | _ => true

/-- TileType::explodes. The first source arm is a guard (tt1 if
tt1.is_plain()), so it is embedded as a leading if; Centerpiece and Whopper
are not plain, so the remaining arms are reached exactly as in the source. -/
def explodes (tt1 tt2 : TileType) : Bool :=
  if tt1.is_plain then tt2.is_plain
  else
    match tt1 with
    | .centerpiece _ =>
      match tt2 with
      | .centerpiece _ => true
      | _ => tt2.is_plain
    | .whopper _ =>
      match tt2 with
      | .centerpiece _ => true
      | .whopper _ => true
      | _ => tt2.is_plain
    | _ => false

/-- TileType::collide, arm for arm in source order. The Killer(n) arms
compute n - 1 on a u8; they are reached with n = 0 only for a Killer(0)
tile, which the game never creates (new_random yields Killer(n) with
n >= 1), so the truncated Nat subtraction agrees with the source on every
reachable input. -/
def collide : TileType → TileType → Option TileType × Option TileType
  | _, .spillage .acid => (none, none)
  | t1, .spillage .glue => (none, t1.drop)
  | .picker, t2 => (t2.drop, none)
  | t1, .picker => (none, t1.drop)
  | .killer 1, _ => (none, none)
  | .killer n, _ => (some (.killer (n - 1)), none)
  | _, .killer 1 => (none, none)
  | _, .killer n => (none, some (.killer (n - 1)))
  | m, n => (some m, some n)

/-- TileType::collides: always true in the canonical chemistry. -/
def collides : TileType → TileType → Bool
  | _, _ => true

/-- TileType::explode_shape: 5x5 for Whopper, 3x3 for everything else. -/
def explode_shape : TileType → List (Int × Int)
  | .whopper _ =>
    [(-2, -2), (-1, -2), (0, -2), (1, -2), (2, -2),
     (-2, -1), (-1, -1), (0, -1), (1, -1), (2, -1),
     (-2,  0), (-1,  0), (0,  0), (1,  0), (2,  0),
     (-2,  1), (-1,  1), (0,  1), (1,  1), (2,  1),
     (-2,  2), (-1,  2), (0,  2), (1,  2), (2,  2)]
  | _ =>
    [(-1, -1), (0, -1), (1, -1),
     (-1,  0), (0,  0), (1,  0),
     (-1,  1), (0,  1), (1,  1)]

/-- TileType::bonus. -/
def bonus : TileType → Nat
  | .plain n => n + 1
  | .centerpiece n => 10 * n
  | .whopper _ => 30
  | _ => 1

end TileType

/-- One tile entry of a Block: (dx, dy, tile type). -/
abbrev Tile := Int × Int × TileType

/-- One queued spill entry: (x, y, liquid). -/
abbrev SpillEntry := Int × Int × LiquidType

/-- Block from src/main.rs: an anchor plus a tile list. -/
structure Block where
  x : Int
  y : Int
  tiles : List Tile
deriving DecidableEq

/-- The scan inside Block::at: walk the tile list with anchor (x0, y0) and
return the first tile whose absolute position is (x, y). -/
def tilesAt : List Tile → Int → Int → Int → Int → Option TileType
  | [], _, _, _, _ => none
  | (dx, dy, tt) :: rest, x0, y0, x, y =>
    if x = x0 + dx ∧ y = y0 + dy then some tt else tilesAt rest x0 y0 x y

/-- The list of (dx, dy) offset positions of a tile list. -/
def posList (ts : List Tile) : List (Int × Int) :=
  ts.map (fun t => (t.1, t.2.1))

namespace Block

/-- Block::at (renamed: at is a Lean keyword). -/
def atPos (b : Block) (x y : Int) : Option TileType :=
  tilesAt b.tiles b.x b.y x y

/-- The invariant of section 3 of the spec: at most one tile per absolute
coordinate within one Block, i.e. the offset positions are pairwise
distinct. -/
def uniquePos (b : Block) : Prop :=
  (posList b.tiles).Nodup

instance (b : Block) : Decidable b.uniquePos :=
  inferInstanceAs (Decidable (posList b.tiles).Nodup)

/-- Block::turned: rotate 90 degrees by mapping each offset (dx, dy) to
(dy, -dx); anchor unchanged. -/
def turned (b : Block) : Block :=
  ⟨b.x, b.y, b.tiles.map (fun t => (t.2.1, -t.1, t.2.2))⟩

/-- Block::moved. -/
def moved (b : Block) (dx dy : Int) : Block :=
  ⟨b.x + dx, b.y + dy, b.tiles⟩

/-- Block::moved_to. -/
def moved_to (b : Block) (x y : Int) : Block :=
  b.moved (x - b.x) (y - b.y)

/-- Block::intersects: some tile of self sits on any tile of blk2. -/
def intersects (b1 b2 : Block) : Bool :=
  b1.tiles.any (fun t => (b2.atPos (b1.x + t.1) (b1.y + t.2.1)).isSome)

/-- Block::collides_with. -/
def collides_with (b1 b2 : Block) : Bool :=
  b1.tiles.any (fun t =>
    match b2.atPos (b1.x + t.1) (b1.y + t.2.1) with
    | some tt2 => TileType.collides t.2.2 tt2
    | none => false)

/-- Block::drop. On overlap with border or dest: (false, dest) with dest
untouched. Otherwise every tile of self is pushed into dest at the offset
that keeps its absolute position, after the per-tile drop() transformation,
tiles with empty drop result being discarded. -/
def drop (self : Block) (dest : Block) (bd : Block) : Bool × Block :=
  if self.intersects bd || self.intersects dest then (false, dest)
  else
    let ddx := self.x - dest.x
    let ddy := self.y - dest.y
    (true, ⟨dest.x, dest.y,
      dest.tiles ++ self.tiles.filterMap (fun t =>
        (TileType.drop t.2.2).map (fun ntt => (t.1 + ddx, t.2.1 + ddy, ntt)))⟩)

/-- One iteration of the loop in Block::collide, acting on the pair
(rtiles1, rtiles2). blk2 is consulted unchanged, exactly as the source
borrows it while mutating the copies. -/
def collideStep (blk1 blk2 : Block) (acc : List Tile × List Tile) (t : Tile) :
    List Tile × List Tile :=
  let xx1 := blk1.x + t.1
  let yy1 := blk1.y + t.2.1
  match blk2.atPos xx1 yy1 with
  | some tt2 =>
    if TileType.collides t.2.2 tt2 then
      let nt := TileType.collide t.2.2 tt2
      let r1 := match nt.1 with
        | some ntt1 => acc.1 ++ [(t.1, t.2.1, ntt1)]
        | none => acc.1
      let r2 := acc.2.filter (fun u =>
        !(blk2.x + u.1 == xx1 && blk2.y + u.2.1 == yy1))
      let r2 := match nt.2 with
        | some ntt2 => r2 ++ [(xx1 - blk2.x, yy1 - blk2.y, ntt2)]
        | none => r2
      (r1, r2)
    else (acc.1 ++ [t], acc.2)
  | none => (acc.1 ++ [t], acc.2)

/-- Block::collide: fold the per-tile collision step over blk1's tiles,
starting from an empty rtiles1 and a copy of blk2's tiles. -/
def collide (blk1 blk2 : Block) : Block × Block :=
  let r := blk1.tiles.foldl (collideStep blk1 blk2) ([], blk2.tiles)
  (⟨blk1.x, blk1.y, r.1⟩, ⟨blk2.x, blk2.y, r.2⟩)

/-- Block::spill: queue the five spill positions around (x, y) in source
order. -/
def spill (x y : Int) (spills : List SpillEntry) (liquid : LiquidType) :
    List SpillEntry :=
  [((0 : Int), (0 : Int)), (0, 1), (1, 0), (0, -1), (-1, 0)].foldl
    (fun acc d => acc ++ [(x + d.1, y + d.2, liquid)]) spills

end Block

/-- handle_xp_action from Block::explode: threads the spills and rtiles
vectors and returns the multiplier delta of the action. -/
def handle_xp_action : ExplodeAction → Int → Int →
    List SpillEntry → List Tile → List SpillEntry × List Tile × Int
  | .remove, _, _, spills, rtiles => (spills, rtiles, 0)
  | .convert tt2, xx, yy, spills, rtiles => (spills, rtiles ++ [(xx, yy, tt2)], 0)
  | .spill liquid, xx, yy, spills, rtiles =>
    (Block.spill xx yy spills liquid, rtiles, 0)
  | .plus, _, _, spills, rtiles => (spills, rtiles, 1)
  | .minus, _, _, spills, rtiles => (spills, rtiles, -1)
  | .complex a b, xx, yy, spills, rtiles =>
    let r1 := handle_xp_action a xx yy spills rtiles
    let r2 := handle_xp_action b xx yy r1.1 r1.2.1
    (r2.1, r2.2.1, r1.2.2 + r2.2.2)

/-- The inner shape scan of detection pass 1: walk the explode shape around
the centre (cx, cy); any missing or incompatible neighbour aborts the scan
(continue 'next discards the partial sublist), otherwise the visited
positions are returned in shape order. -/
def scanShape (b : Block) (cx cy : Int) (tt : TileType) :
    List (Int × Int) → Option (List (Int × Int))
  | [] => some []
  | d :: rest =>
    let x2 := cx + d.1
    let y2 := cy + d.2
    match b.atPos x2 y2 with
    | none => none
    | some tt2 =>
      if tt.explodes tt2 then
        (scanShape b cx cy tt rest).map (fun l => (x2, y2) :: l)
      else none

/-- Detection pass 1 of Block::explode: concatenate the full-shape sublists
of every tile that detonates, in tile order. Positions are absolute. -/
def detectKill (b : Block) : List (Int × Int) :=
  b.tiles.foldl (fun kl t =>
    match scanShape b (b.x + t.1) (b.y + t.2.1) t.2.2 (t.2.2.explode_shape) with
    | some sub => kl ++ sub
    | none => kl) []

/-- Resolution pass 2 of Block::explode, one tile at a time: a tile whose
absolute position is on the kill list is exploded (bonus into hits, explode
action handled, panic of the action computation propagated as none), any
other tile is retained. Accumulators carry (exploded, rtiles, spills, hits,
dmult) in push order. -/
def sweepGo (x0 y0 : Int) (kl : List (Int × Int)) :
    List Tile → List Tile → List Tile → List SpillEntry → Nat → Int →
    Option (List Tile × List Tile × List SpillEntry × Nat × Int)
  | [], e, r, s, h, d => some (e, r, s, h, d)
  | (xx, yy, tt) :: ts, e, r, s, h, d =>
    if kl.any (fun q => x0 + xx == q.1 && y0 + yy == q.2) then
      match tt.explode with
      | none => none
      | some xa =>
        let hr := handle_xp_action xa xx yy s r
        sweepGo x0 y0 kl ts (e ++ [(xx, yy, tt)]) hr.2.1 hr.1
          (h + tt.bonus) (d + hr.2.2)
    else
      sweepGo x0 y0 kl ts e (r ++ [(xx, yy, tt)]) s h d

/-- The spill application loop at the end of Block::explode: the block's
tiles have just been replaced by rtiles, then each queued spill position is
filled with a Spillage tile if self.at finds nothing there. The source
passes the queued (offset-frame) coordinates to the absolute-frame lookup
self.at, which is transcribed verbatim here. -/
def applySpills (x0 y0 : Int) : List Tile → List SpillEntry → List Tile
  | ts, [] => ts
  | ts, sp :: rest =>
    let ts' := if (tilesAt ts x0 y0 sp.1 sp.2.1).isSome then ts
               else ts ++ [(sp.1, sp.2.1, TileType.spillage sp.2.2)]
    applySpills x0 y0 ts' rest

/-- Block::explode: detection, resolution sweep, spill application, bulk
bonus. Returns the updated block together with (exploded, hits, dmult);
none is the u8 underflow panic of an exploding Centerpiece(0). -/
def Block.explode (b : Block) : Option (Block × List Tile × Nat × Int) :=
  match sweepGo b.x b.y (detectKill b) b.tiles [] [] [] 0 0 with
  | none => none
  | some (e, r, s, h, d) =>
    let tiles2 := applySpills b.x b.y r s
    let d2 := if 12 < e.length then d + Int.ofNat ((e.length - 9) / 9) else d
    some (⟨b.x, b.y, tiles2⟩, e, h, d2)

/-- The conversion residue of one exploded tile: the tile pushed back into
rtiles by its explode action, if any. -/
def convOpt : TileType → Option TileType
  | .plain (n + 1) => some (.plain n)
  | .centerpiece (n + 2) => some (.centerpiece (n + 1))
  | .whopper n => some (.centerpiece n)
  | _ => none

/-- The rtiles contribution of one exploded tile. -/
def convContrib (tt : TileType) (xx yy : Int) : List Tile :=
  match convOpt tt with
  | some tt2 => [(xx, yy, tt2)]
  | none => []

/-- The liquid spilled by one exploded tile, if any. -/
def spillOpt : TileType → Option LiquidType
  | .flask l => some l
  | _ => none

/-- The spill-queue contribution of one exploded tile: a flask queues the
five positions around its offset, anything else queues nothing. -/
def spillContrib (tt : TileType) (xx yy : Int) : List SpillEntry :=
  match spillOpt tt with
  | some l => [(xx, yy, l), (xx, yy + 1, l), (xx + 1, yy, l),
               (xx, yy - 1, l), (xx - 1, yy, l)]
  | none => []

/-- The multiplier delta of one exploded tile. -/
def dmultOf : TileType → Int
  | .plus => 1
  | .minus => -1
  | _ => 0

/-- The whole spill queue produced by a list of exploded tiles, in
exploded order. -/
def flaskSpills : List Tile → List SpillEntry
  | [] => []
  | (xx, yy, tt) :: rest => spillContrib tt xx yy ++ flaskSpills rest

/-- The liquid of the first queued spill at a given position: since the
spill queue is applied in order and the tile list only grows, this is the
spill that can actually claim the position. -/
def firstSpillAt : List SpillEntry → Int → Int → Option LiquidType
  | [], _, _ => none
  | (qx, qy, ql) :: rest, x, y =>
    if x = qx ∧ y = qy then some ql else firstSpillAt rest x y

/-- Concrete playfield at anchor (0, 0): a full 3x3 of plain-class tiles
with a Flask(Acid) in the centre, so the centre detonates and the flask
spills. -/
def B0 : Block :=
  ⟨0, 0, [(-1, -1, .plain 0), (0, -1, .plain 0), (1, -1, .plain 0),
          (-1, 0, .plain 0), (0, 0, .flask .acid), (1, 0, .plain 0),
          (-1, 1, .plain 0), (0, 1, .plain 0), (1, 1, .plain 0)]⟩

/-- The playfield B0 after one explosion cycle: the nine tiles are gone
and the five spill positions around the flask hold Spillage(Acid). -/
def B0After : Block :=
  ⟨0, 0, [(0, 0, .spillage .acid), (0, 1, .spillage .acid),
          (1, 0, .spillage .acid), (0, -1, .spillage .acid),
          (-1, 0, .spillage .acid)]⟩

/-- Concrete playfield at anchor (5, 5): a detonating 3x3 whose flask sits
at offset (1, 0), plus a surviving Permanent tile at offset (2, 0), i.e.
absolute (7, 5), which is one of the five spill positions of the flask. -/
def cexBlock : Block :=
  ⟨5, 5, [(-1, -1, .plain 0), (0, -1, .plain 0), (1, -1, .plain 0),
          (-1, 0, .plain 0), (0, 0, .plain 0), (1, 0, .flask .acid),
          (-1, 1, .plain 0), (0, 1, .plain 0), (1, 1, .plain 0),
          (2, 0, .permanent)]⟩

/-- The playfield cexBlock after one explosion cycle. -/
def cexAfter : Block :=
  (cexBlock.explode.map (fun res => res.1)).getD ⟨0, 0, []⟩

/-! Lemmas about fn level. -/

theorem levelLoop_unfold (s b l : Nat) :
    levelLoop s b l =
      if b < s then levelLoop s (b + (l + 1) * 100) (l + 1) else l := by
  rw [levelLoop]

theorem levelLoop_stop {s b l : Nat} (h : s ≤ b) : levelLoop s b l = l := by
  rw [levelLoop_unfold, if_neg (by omega)]

theorem levelLoop_step {s b l : Nat} (h : b < s) :
    levelLoop s b l = levelLoop s (b + (l + 1) * 100) (l + 1) := by
  rw [levelLoop_unfold, if_pos h]

theorem cumul_succ (l : Nat) : cumul (l + 1) = cumul l + (l + 1) * 100 := rfl

theorem cumul_le_cumul {l m : Nat} (h : l ≤ m) : cumul l ≤ cumul m := by
  induction h with
  | refl => exact le_refl _
  | step _ ih => rename_i m' _; calc
      cumul l ≤ cumul m' := ih
      _ ≤ cumul (m' + 1) := by rw [cumul_succ]; omega

theorem self_le_cumul (l : Nat) : l ≤ cumul l := by
  induction l with
  | zero => simp [cumul]
  | succ n ih => rw [cumul_succ]; omega

theorem levelLoop_run (s L : Nat) (hL : cumul L < s) (hU : s ≤ cumul (L + 1)) :
    ∀ k l, l + k = L + 1 → levelLoop s (cumul l) l = L + 1 := by
  intro k
  induction k with
  | zero =>
    intro l hl
    have hll : l = L + 1 := by omega
    subst hll
    exact levelLoop_stop hU
  | succ k ih =>
    intro l hl
    have h1 : l ≤ L := by omega
    have h2 : cumul l < s := lt_of_le_of_lt (cumul_le_cumul h1) hL
    rw [levelLoop_step h2, ← cumul_succ]
    exact ih (l + 1) (by omega)

theorem level_eq_of_between {s L : Nat} (hL : cumul L < s)
    (hU : s ≤ cumul (L + 1)) : level s = L + 1 := by
  have h0 : level s = levelLoop s (cumul 0) 0 := rfl
  rw [h0]
  exact levelLoop_run s L hL hU (L + 1) 0 (by omega)

theorem level_zero : level 0 = 0 := levelLoop_stop (Nat.le_refl 0)

theorem exists_level_interval {s : Nat} (hs : 1 ≤ s) :
    ∃ L, cumul L < s ∧ s ≤ cumul (L + 1) := by
  have hex : ∃ L, s ≤ cumul L := ⟨s, self_le_cumul s⟩
  have hK : s ≤ cumul (Nat.find hex) := Nat.find_spec hex
  have hK0 : Nat.find hex ≠ 0 := by
    intro h
    rw [h] at hK
    simp [cumul] at hK
    omega
  obtain ⟨L, hL⟩ : ∃ L, Nat.find hex = L + 1 := ⟨Nat.find hex - 1, by omega⟩
  rw [hL] at hK
  refine ⟨L, ?_, hK⟩
  have hmin := Nat.find_min hex (m := L) (by omega)
  omega

/-! Lemmas about TileType.drop. -/

theorem drop_isSome (tt : TileType) : (TileType.drop tt).isSome = true := by
  cases tt <;> rfl

/-! Claim theorems for the tile chemistry, the pen algebra, the glyph
table, the rotation and the level function. -/

/-- C1: TileType::explode realises the spec's table on every listed case:
Plain(0) removes, Plain(n>0) converts down, Centerpiece(1) removes,
Centerpiece(n>1) converts down, Whopper(n) converts to Centerpiece(n),
Flask spills its liquid, Plus/Minus yield Complex(Remove, Plus/Minus), and
Permanent, Killer, Picker and Spillage are plainly removed. -/
theorem explode_table :
    TileType.explode (.plain 0) = some .remove ∧
    (∀ n : Nat, 0 < n →
      TileType.explode (.plain n) = some (.convert (.plain (n - 1)))) ∧
    TileType.explode (.centerpiece 1) = some .remove ∧
    (∀ n : Nat, 1 < n →
      TileType.explode (.centerpiece n) = some (.convert (.centerpiece (n - 1)))) ∧
    (∀ n : Nat, TileType.explode (.whopper n) = some (.convert (.centerpiece n))) ∧
    (∀ l : LiquidType, TileType.explode (.flask l) = some (.spill l)) ∧
    TileType.explode .plus = some (.complex .remove .plus) ∧
    TileType.explode .minus = some (.complex .remove .minus) ∧
    TileType.explode .permanent = some .remove ∧
    (∀ n : Nat, TileType.explode (.killer n) = some .remove) ∧
    TileType.explode .picker = some .remove ∧
    (∀ l : LiquidType, TileType.explode (.spillage l) = some .remove) := by
  refine ⟨rfl, ?_, rfl, ?_, ?_, ?_, rfl, rfl, rfl, ?_, rfl, ?_⟩
  · intro n hn
    obtain ⟨m, rfl⟩ : ∃ m, n = m + 1 := ⟨n - 1, by omega⟩
    simp [TileType.explode, checkedPred]
  · intro n hn
    obtain ⟨m, rfl⟩ : ∃ m, n = m + 2 := ⟨n - 2, by omega⟩
    simp [TileType.explode, checkedPred]
  · intro n; rfl
  · intro l; cases l <;> rfl
  · intro n; rfl
  · intro l; cases l <;> rfl

/-- Witness for C1 at Plain(3) and Centerpiece(2). -/
theorem explode_table_witness :
    ((0 : Nat) < 3 ∧
      TileType.explode (.plain 3) = some (.convert (.plain 2))) ∧
    ((1 : Nat) < 2 ∧
      TileType.explode (.centerpiece 2) = some (.convert (.centerpiece 1))) :=
  ⟨⟨by decide, explode_table.2.1 3 (by decide)⟩,
   ⟨by decide, explode_table.2.2.2.1 2 (by decide)⟩⟩

/-- C10: TileType::explode is total except at Centerpiece(0), where the
source computes 0 - 1 on a u8 (an underflow, a panic under checked
arithmetic); every other tile value, including Plain(0) and Whopper(0), is
well defined, so under the precondition that Centerpiece payloads are at
least 1 the error branch is unreachable. -/
theorem explode_checked_total :
    TileType.explode (.centerpiece 0) = none ∧
    (∀ t : TileType, t ≠ .centerpiece 0 → (TileType.explode t).isSome = true) := by
  constructor
  · rfl
  · intro t ht
    cases t with
    | plain n =>
      cases n with
      | zero => rfl
      | succ m => simp [TileType.explode, checkedPred]
    | centerpiece n =>
      have hn : n ≠ 0 := by
        intro h
        exact ht (by rw [h])
      match n, hn with
      | 1, _ => rfl
      | (m + 2), _ => simp [TileType.explode, checkedPred]
    | whopper n => rfl
    | flask l => rfl
    | spillage l => rfl
    | killer n => rfl
    | permanent => rfl
    | picker => rfl
    | plus => rfl
    | minus => rfl

/-- Witness for C10 at Plain(0) and Whopper(0). -/
theorem explode_checked_total_witness :
    (TileType.plain 0 ≠ .centerpiece 0 ∧
      (TileType.explode (.plain 0)).isSome = true) ∧
    (TileType.whopper 0 ≠ .centerpiece 0 ∧
      (TileType.explode (.whopper 0)).isSome = true) :=
  ⟨⟨by decide, explode_checked_total.2 (.plain 0) (by decide)⟩,
   ⟨by decide, explode_checked_total.2 (.whopper 0) (by decide)⟩⟩

/-- C6: a falling Killer(2) colliding with a stationary Plain(0) keeps
Killer(1) on the falling side and removes the stationary tile, and
Killer(1) then drops into the playfield as Plain(0). -/
theorem killer_two_on_plain_zero :
    TileType.collide (.killer 2) (.plain 0) = (some (.killer 1), none) ∧
    TileType.drop (.killer 1) = some (.plain 0) := by
  decide

/-- C8: the Pen combine algebra: commutative, idempotent, None is the
identity, Thick absorbs, Thin joined with Thin stays Thin. -/
theorem pen_combine_laws :
    (∀ p1 p2 : Pen, Pen.combine p1 p2 = Pen.combine p2 p1) ∧
    (∀ p : Pen, Pen.combine p p = p) ∧
    (∀ p : Pen, Pen.combine .none p = p) ∧
    (∀ p : Pen, Pen.combine .thik p = .thik) ∧
    Pen.combine .thin .thin = .thin := by
  decide

/-- C7: the glyph table is total: every one of the 81 Pen 4-tuples renders
to a single defined glyph, and the all-None tuple renders to a blank. -/
theorem render_field_drawing_total :
    (∀ dw : FieldDrawing, (Grid.render_field_drawing dw).length = 1) ∧
    Grid.render_field_drawing ⟨.none, .none, .none, .none⟩ = " " := by
  constructor
  · intro dw
    obtain ⟨u, r, d, l⟩ := dw
    cases u <;> cases r <;> cases d <;> cases l <;> rfl
  · rfl

theorem turned_tiles (b : Block) :
    b.turned.tiles = b.tiles.map (fun t => (t.2.1, -t.1, t.2.2)) := rfl

theorem turned_four (b : Block) : b.turned.turned.turned.turned = b := by
  obtain ⟨x, y, ts⟩ := b
  simp only [Block.turned, List.map_map]
  congr 1
  induction ts with
  | nil => rfl
  | cons t ts ih =>
    obtain ⟨dx, dy, tt⟩ := t
    simpa using ih

/-- C9: four quarter turns restore the anchor and the multiset of tile
entries, and a single turn maps each offset (dx, dy) to (dy, -dx). -/
theorem turned_four_times_identity :
    (∀ b : Block,
      b.turned.turned.turned.turned.x = b.x ∧
      b.turned.turned.turned.turned.y = b.y ∧
      (b.turned.turned.turned.turned.tiles : Multiset Tile) =
        (b.tiles : Multiset Tile)) ∧
    (∀ b : Block, b.turned.tiles = b.tiles.map (fun t => (t.2.1, -t.1, t.2.2))) := by
  constructor
  · intro b
    rw [turned_four b]
    exact ⟨rfl, rfl, rfl⟩
  · intro b
    exact turned_tiles b

/-- C3 (counterexample): the claim puts every score below 100 at level 0,
but the source loop runs while base is strictly below score, so already
level(99) = 1. -/
theorem level_interval_cex :
    (0 : Nat) ≤ 99 ∧ (99 : Nat) < 100 ∧ level 99 = 1 :=
  ⟨by omega, by omega,
    level_eq_of_between (by decide) (by decide)⟩

/-- C3 (amended): on the score range where the source's u8 level counter
cannot overflow, level(s) = L+1 exactly when 100*(1+..+L) < s <=
100*(1+..+(L+1)), level(s) = 0 exactly when s = 0, and level is monotone;
the step function rises strictly after each cumulative threshold
100, 300, 600, 1000, ... -/
theorem level_step_characterization :
    (∀ s : Nat, s ≤ cumul 255 → (level s = 0 ↔ s = 0)) ∧
    (∀ s L : Nat, s ≤ cumul 255 →
      (level s = L + 1 ↔ cumul L < s ∧ s ≤ cumul (L + 1))) ∧
    (∀ s t : Nat, s ≤ cumul 255 → t ≤ cumul 255 → s ≤ t →
      level s ≤ level t) := by
  have hchar : ∀ s L : Nat, level s = L + 1 ↔ cumul L < s ∧ s ≤ cumul (L + 1) := by
    intro s L
    constructor
    · intro h
      by_cases hs : s = 0
      · subst hs
        rw [level_zero] at h
        omega
      · obtain ⟨M, hM1, hM2⟩ := exists_level_interval (show 1 ≤ s by omega)
        have hM := level_eq_of_between hM1 hM2
        rw [h] at hM
        have hml : M = L := by omega
        subst hml
        exact ⟨hM1, hM2⟩
    · intro h
      exact level_eq_of_between h.1 h.2
  have hzero : ∀ s : Nat, level s = 0 ↔ s = 0 := by
    intro s
    constructor
    · intro h
      by_contra hs
      obtain ⟨M, hM1, hM2⟩ := exists_level_interval (show 1 ≤ s by omega)
      have hM := level_eq_of_between hM1 hM2
      rw [h] at hM
      omega
    · intro h
      subst h
      exact level_zero
  refine ⟨fun s _ => hzero s, fun s L _ => hchar s L, ?_⟩
  intro s t _ _ hst
  by_cases hs : s = 0
  · subst hs
    rw [level_zero]
    exact Nat.zero_le _
  · obtain ⟨M, hM1, hM2⟩ := exists_level_interval (show 1 ≤ s by omega)
    obtain ⟨N, hN1, hN2⟩ := exists_level_interval (show 1 ≤ t by omega)
    rw [level_eq_of_between hM1 hM2, level_eq_of_between hN1 hN2]
    by_contra hcon
    have hNM : N + 1 ≤ M := by omega
    have := cumul_le_cumul hNM
    omega

/-- Witness for the amended C3 at score 50: level 50 = 1 because the first
threshold interval is 0 < s <= 100. -/
theorem level_step_characterization_witness :
    ((50 : Nat) ≤ cumul 255 ∧ cumul 0 < 50 ∧ (50 : Nat) ≤ cumul (0 + 1)) ∧
    level 50 = 0 + 1 :=
  ⟨⟨by decide, by decide, by decide⟩,
    (level_step_characterization.2.1 50 0 (by decide)).mpr ⟨by decide, by decide⟩⟩

/-- C5: Block::drop is all-or-nothing: on overlap with the border or the
destination it reports false and leaves the destination untouched;
otherwise it reports true and the destination's tiles become exactly the
old tiles plus, for every tile of self whose drop() survives, the dropped
tile at self's absolute position expressed in dest's offset space. -/
theorem drop_all_or_nothing :
    ∀ self dest bd : Block,
      ((self.intersects bd || self.intersects dest) = true →
        Block.drop self dest bd = (false, dest)) ∧
      ((self.intersects bd || self.intersects dest) = false →
        Block.drop self dest bd = (true, ⟨dest.x, dest.y,
          dest.tiles ++ self.tiles.filterMap (fun t =>
            (TileType.drop t.2.2).map (fun ntt =>
              (self.x + t.1 - dest.x, self.y + t.2.1 - dest.y, ntt)))⟩)) := by
  intro self dest bd
  constructor
  · intro h
    simp [Block.drop, h]
  · intro h
    simp only [Block.drop, h, Bool.false_eq_true, if_false]
    refine Prod.ext rfl ?_
    simp only
    congr 1
    congr 1
    apply List.filterMap_congr
    intro t _
    cases TileType.drop t.2.2 with
    | none => rfl
    | some ntt =>
      simp only [Option.map_some']
      congr 2 <;> ring_nf

/-- Witness for C5: a successful drop of a two-tile block into an occupied
destination, border and destination clear of the falling block. -/
theorem drop_all_or_nothing_witness :
    ((Block.mk 3 3 [(0, 0, .killer 2), (1, 0, .plain 1)]).intersects
        (Block.mk 0 0 [(9, 9, .permanent)]) ||
      (Block.mk 3 3 [(0, 0, .killer 2), (1, 0, .plain 1)]).intersects
        (Block.mk 0 0 [(0, 0, .plain 0)])) = false ∧
    Block.drop (Block.mk 3 3 [(0, 0, .killer 2), (1, 0, .plain 1)])
        (Block.mk 0 0 [(0, 0, .plain 0)]) (Block.mk 0 0 [(9, 9, .permanent)]) =
      (true, ⟨0, 0, [(0, 0, .plain 0), (3, 3, .plain 0), (4, 3, .plain 1)]⟩) := by
  constructor
  · decide
  · have h := (drop_all_or_nothing (Block.mk 3 3 [(0, 0, .killer 2), (1, 0, .plain 1)])
      (Block.mk 0 0 [(0, 0, .plain 0)]) (Block.mk 0 0 [(9, 9, .permanent)])).2 (by decide)
    rw [h]
    decide

/-! Lemmas about the position lookup tilesAt. -/

theorem posList_append (ts us : List Tile) :
    posList (ts ++ us) = posList ts ++ posList us := by
  simp [posList]

theorem posList_cons (t : Tile) (ts : List Tile) :
    posList (t :: ts) = (t.1, t.2.1) :: posList ts := rfl

theorem tilesAt_eq_none_iff {ts : List Tile} {x0 y0 x y : Int} :
    tilesAt ts x0 y0 x y = none ↔
      ∀ t ∈ ts, ¬(x = x0 + t.1 ∧ y = y0 + t.2.1) := by
  induction ts with
  | nil => simp [tilesAt]
  | cons t ts ih =>
    obtain ⟨dx, dy, tt⟩ := t
    by_cases h : x = x0 + dx ∧ y = y0 + dy
    · simp [tilesAt, h]
    · simp [tilesAt, h, ih]
      exact fun _ h1 h2 => h ⟨h1, h2⟩

theorem tilesAt_append (ts us : List Tile) (x0 y0 x y : Int) :
    tilesAt (ts ++ us) x0 y0 x y =
      match tilesAt ts x0 y0 x y with
      | some tt => some tt
      | none => tilesAt us x0 y0 x y := by
  induction ts with
  | nil => simp [tilesAt]
  | cons t ts ih =>
    obtain ⟨dx, dy, tt⟩ := t
    by_cases h : x = x0 + dx ∧ y = y0 + dy <;> simp [tilesAt, h, ih]

theorem tilesAt_some_mem {ts : List Tile} {x0 y0 x y : Int} {tt : TileType}
    (h : tilesAt ts x0 y0 x y = some tt) : (x - x0, y - y0, tt) ∈ ts := by
  induction ts with
  | nil => simp [tilesAt] at h
  | cons t ts ih =>
    obtain ⟨dx, dy, tt'⟩ := t
    by_cases hc : x = x0 + dx ∧ y = y0 + dy
    · rw [tilesAt, if_pos hc] at h
      obtain rfl : tt' = tt := by injection h
      have hx : x - x0 = dx := by omega
      have hy : y - y0 = dy := by omega
      rw [hx, hy]
      exact List.mem_cons_self _ _
    · rw [tilesAt, if_neg hc] at h
      exact List.mem_cons_of_mem _ (ih h)

theorem tilesAt_zero_none_iff {ts : List Tile} {x y : Int} :
    tilesAt ts 0 0 x y = none ↔ (x, y) ∉ posList ts := by
  rw [tilesAt_eq_none_iff]
  unfold posList
  constructor
  · intro h hm
    obtain ⟨t, ht, hp⟩ := List.mem_map.mp hm
    have h1 : t.1 = x := congrArg Prod.fst hp
    have h2 : t.2.1 = y := congrArg Prod.snd hp
    exact h t ht ⟨by omega, by omega⟩
  · intro h t ht hc
    obtain ⟨hc1, hc2⟩ := hc
    apply h
    apply List.mem_map.mpr
    exact ⟨t, ht, Prod.ext (by omega) (by omega)⟩

theorem tilesAt_zero_some_mem {ts : List Tile} {x y : Int} {tt : TileType}
    (h : tilesAt ts 0 0 x y = some tt) : (x, y, tt) ∈ ts := by
  have := tilesAt_some_mem h
  simpa using this

theorem tilesAt_zero_isSome_iff {ts : List Tile} {x y : Int} :
    (tilesAt ts 0 0 x y).isSome = true ↔ (x, y) ∈ posList ts := by
  constructor
  · intro h
    obtain ⟨tt, htt⟩ := Option.isSome_iff_exists.mp h
    unfold posList
    exact List.mem_map.mpr ⟨(x, y, tt), tilesAt_zero_some_mem htt, rfl⟩
  · intro h
    by_contra hns
    have hnone : tilesAt ts 0 0 x y = none := by
      cases hc : tilesAt ts 0 0 x y with
      | none => rfl
      | some tt => rw [hc] at hns; simp at hns
    exact (tilesAt_zero_none_iff.mp hnone) h

/-! Lemmas about the spill application loop. -/

theorem applySpills_split (x0 y0 : Int) :
    ∀ (sp : List SpillEntry) (ts : List Tile),
      ∃ added, applySpills x0 y0 ts sp = ts ++ added ∧
        ∀ t ∈ added, ∃ l : LiquidType,
          t.2.2 = TileType.spillage l ∧ (t.1, t.2.1, l) ∈ sp ∧
          tilesAt ts x0 y0 t.1 t.2.1 = none := by
  intro sp
  induction sp with
  | nil =>
    intro ts
    exact ⟨[], by simp [applySpills], by simp⟩
  | cons q rest ih =>
    intro ts
    obtain ⟨qx, qy, ql⟩ := q
    by_cases h : (tilesAt ts x0 y0 qx qy).isSome = true
    · obtain ⟨added, heq, hmem⟩ := ih ts
      refine ⟨added, ?_, ?_⟩
      · rw [applySpills]
        simp only [h, if_true]
        exact heq
      · intro t ht
        obtain ⟨l, h1, h2, h3⟩ := hmem t ht
        exact ⟨l, h1, List.mem_cons_of_mem _ h2, h3⟩
    · obtain ⟨added, heq, hmem⟩ := ih (ts ++ [(qx, qy, .spillage ql)])
      refine ⟨(qx, qy, .spillage ql) :: added, ?_, ?_⟩
      · rw [applySpills, if_neg h]
        rw [heq]
        simp
      · intro t ht
        rcases List.mem_cons.mp ht with h1 | h1
        · subst h1
          refine ⟨ql, rfl, List.mem_cons_self _ _, ?_⟩
          cases hc : tilesAt ts x0 y0 qx qy with
          | none => rfl
          | some tt => rw [hc] at h; simp at h
        · obtain ⟨l, h1', h2', h3'⟩ := hmem t h1
          refine ⟨l, h1', List.mem_cons_of_mem _ h2', ?_⟩
          rw [tilesAt_append] at h3'
          cases hh : tilesAt ts x0 y0 t.1 t.2.1 with
          | none => rfl
          | some tt => rw [hh] at h3'; simp at h3'

theorem applySpills_split_zero :
    ∀ (sp : List SpillEntry) (ts : List Tile),
      ∃ added, applySpills 0 0 ts sp = ts ++ added ∧
        (posList added).Nodup ∧
        ∀ t ∈ added, ∃ l : LiquidType, t.2.2 = TileType.spillage l ∧
          firstSpillAt sp t.1 t.2.1 = some l ∧ (t.1, t.2.1) ∉ posList ts := by
  intro sp
  induction sp with
  | nil =>
    intro ts
    exact ⟨[], by simp [applySpills], by simp [posList], by simp⟩
  | cons q rest ih =>
    intro ts
    obtain ⟨qx, qy, ql⟩ := q
    by_cases h : (tilesAt ts 0 0 qx qy).isSome = true
    · obtain ⟨added, heq, hnd, hmem⟩ := ih ts
      refine ⟨added, ?_, hnd, ?_⟩
      · rw [applySpills, if_pos h]
        exact heq
      · intro t ht
        obtain ⟨l, h1, h2, h3⟩ := hmem t ht
        refine ⟨l, h1, ?_, h3⟩
        rw [firstSpillAt, if_neg ?_]
        · exact h2
        · intro hc
          have hocc : (qx, qy) ∈ posList ts := tilesAt_zero_isSome_iff.mp h
          apply h3
          rw [hc.1, hc.2]
          exact hocc
    · obtain ⟨added, heq, hnd, hmem⟩ := ih (ts ++ [(qx, qy, .spillage ql)])
      have hempty : (qx, qy) ∉ posList ts := by
        rw [← tilesAt_zero_none_iff]
        cases hc : tilesAt ts 0 0 qx qy with
        | none => rfl
        | some tt => rw [hc] at h; simp at h
      refine ⟨(qx, qy, .spillage ql) :: added, ?_, ?_, ?_⟩
      · rw [applySpills, if_neg h, heq]
        simp
      · rw [posList_cons]
        apply List.nodup_cons.mpr
        refine ⟨?_, hnd⟩
        intro hmem'
        unfold posList at hmem'
        obtain ⟨t, ht, htp⟩ := List.mem_map.mp hmem'
        obtain ⟨l, -, -, h3⟩ := hmem t ht
        apply h3
        rw [posList_append]
        apply List.mem_append_right
        simp only [posList, List.map_cons, List.map_nil, List.mem_singleton]
        exact htp
      · intro t ht
        rcases List.mem_cons.mp ht with h1 | h1
        · subst h1
          refine ⟨ql, rfl, ?_, hempty⟩
          rw [firstSpillAt, if_pos ⟨rfl, rfl⟩]
        · obtain ⟨l, hl1, hl2, hl3⟩ := hmem t h1
          have hne : ¬(t.1 = qx ∧ t.2.1 = qy) := by
            intro hc
            apply hl3
            rw [posList_append]
            apply List.mem_append_right
            simp only [posList, List.map_cons, List.map_nil, List.mem_singleton]
            exact Prod.ext hc.1 hc.2
          have hnts : (t.1, t.2.1) ∉ posList ts := by
            intro hc
            exact hl3 (by rw [posList_append]; exact List.mem_append_left _ hc)
          refine ⟨l, hl1, ?_, hnts⟩
          rw [firstSpillAt, if_neg hne]
          exact hl2

theorem applySpills_mem_of_spill :
    ∀ (sp : List SpillEntry) (ts : List Tile) (q : SpillEntry), q ∈ sp →
      ∃ tt, (q.1, q.2.1, tt) ∈ applySpills 0 0 ts sp := by
  intro sp
  induction sp with
  | nil =>
    intro ts q h
    simp at h
  | cons q0 rest ih =>
    intro ts q hq
    obtain ⟨qx, qy, ql⟩ := q0
    rcases List.mem_cons.mp hq with h1 | h1
    · subst h1
      by_cases h : (tilesAt ts 0 0 qx qy).isSome = true
      · obtain ⟨tt, htt⟩ := Option.isSome_iff_exists.mp h
        have hmem : (qx, qy, tt) ∈ ts := tilesAt_zero_some_mem htt
        rw [applySpills, if_pos h]
        obtain ⟨added, heq, _⟩ := applySpills_split 0 0 rest ts
        rw [heq]
        exact ⟨tt, List.mem_append_left _ hmem⟩
      · rw [applySpills, if_neg h]
        obtain ⟨added, heq, _⟩ :=
          applySpills_split 0 0 rest (ts ++ [(qx, qy, .spillage ql)])
        rw [heq]
        exact ⟨.spillage ql, List.mem_append_left _ (by simp)⟩
    · rw [applySpills]
      by_cases h : (tilesAt ts 0 0 qx qy).isSome = true
      · rw [if_pos h]
        exact ih ts q h1
      · rw [if_neg h]
        exact ih _ q h1

theorem applySpills_nodup :
    ∀ (sp : List SpillEntry) (ts : List Tile), (posList ts).Nodup →
      (posList (applySpills 0 0 ts sp)).Nodup := by
  intro sp
  induction sp with
  | nil =>
    intro ts h
    rw [applySpills]
    exact h
  | cons q rest ih =>
    intro ts h
    obtain ⟨qx, qy, ql⟩ := q
    rw [applySpills]
    by_cases hocc : (tilesAt ts 0 0 qx qy).isSome = true
    · rw [if_pos hocc]
      exact ih ts h
    · rw [if_neg hocc]
      apply ih
      have hnotmem : (qx, qy) ∉ posList ts := by
        rw [← tilesAt_zero_none_iff]
        cases hc : tilesAt ts 0 0 qx qy with
        | none => rfl
        | some tt => rw [hc] at hocc; simp at hocc
      rw [posList_append]
      apply List.Nodup.append h (by simp [posList])
      intro p hp
      simp only [posList, List.map_cons, List.map_nil, List.mem_singleton]
      intro hpq
      subst hpq
      exact hnotmem hp

/-! Lemmas about the resolution sweep. -/

theorem spill_queue (x y : Int) (s : List SpillEntry) (l : LiquidType) :
    Block.spill x y s l = s ++ [(x, y, l), (x, y + 1, l), (x + 1, y, l),
      (x, y - 1, l), (x - 1, y, l)] := by
  simp [Block.spill, sub_eq_add_neg]

theorem handle_of_explode {tt : TileType} {xa : ExplodeAction}
    (h : tt.explode = some xa) (xx yy : Int) (s : List SpillEntry)
    (r : List Tile) :
    handle_xp_action xa xx yy s r =
      (s ++ spillContrib tt xx yy, r ++ convContrib tt xx yy, dmultOf tt) := by
  cases tt with
  | plain n =>
    cases n with
    | zero =>
      obtain rfl : xa = .remove := by
        simpa [TileType.explode] using h.symm
      simp [handle_xp_action, spillContrib, spillOpt, convContrib, convOpt, dmultOf]
    | succ m =>
      obtain rfl : xa = .convert (.plain m) := by
        simpa [TileType.explode, checkedPred] using h.symm
      simp [handle_xp_action, spillContrib, spillOpt, convContrib, convOpt, dmultOf]
  | centerpiece n =>
    match n with
    | 0 => simp [TileType.explode, checkedPred] at h
    | 1 =>
      obtain rfl : xa = .remove := by
        simpa [TileType.explode] using h.symm
      simp [handle_xp_action, spillContrib, spillOpt, convContrib, convOpt, dmultOf]
    | (m + 2) =>
      obtain rfl : xa = .convert (.centerpiece (m + 1)) := by
        simpa [TileType.explode, checkedPred] using h.symm
      simp [handle_xp_action, spillContrib, spillOpt, convContrib, convOpt, dmultOf]
  | whopper n =>
    obtain rfl : xa = .convert (.centerpiece n) := by
      simpa [TileType.explode] using h.symm
    simp [handle_xp_action, spillContrib, spillOpt, convContrib, convOpt, dmultOf]
  | flask l =>
    obtain rfl : xa = .spill l := by
      simpa [TileType.explode] using h.symm
    simp only [handle_xp_action, spillContrib, spillOpt, convContrib, convOpt, dmultOf]
    rw [spill_queue]
    simp
  | spillage l =>
    obtain rfl : xa = .remove := by
      simpa [TileType.explode] using h.symm
    simp [handle_xp_action, spillContrib, spillOpt, convContrib, convOpt, dmultOf]
  | killer n =>
    obtain rfl : xa = .remove := by
      simpa [TileType.explode] using h.symm
    simp [handle_xp_action, spillContrib, spillOpt, convContrib, convOpt, dmultOf]
  | permanent =>
    obtain rfl : xa = .remove := by
      simpa [TileType.explode] using h.symm
    simp [handle_xp_action, spillContrib, spillOpt, convContrib, convOpt, dmultOf]
  | picker =>
    obtain rfl : xa = .remove := by
      simpa [TileType.explode] using h.symm
    simp [handle_xp_action, spillContrib, spillOpt, convContrib, convOpt, dmultOf]
  | plus =>
    obtain rfl : xa = .complex .remove .plus := by
      simpa [TileType.explode] using h.symm
    simp [handle_xp_action, spillContrib, spillOpt, convContrib, convOpt, dmultOf]
  | minus =>
    obtain rfl : xa = .complex .remove .minus := by
      simpa [TileType.explode] using h.symm
    simp [handle_xp_action, spillContrib, spillOpt, convContrib, convOpt, dmultOf]

theorem sweepGo_split (x0 y0 : Int) (kl : List (Int × Int)) :
    ∀ (ts e r : List Tile) (s : List SpillEntry) (h : Nat) (d : Int)
      (e' r' : List Tile) (s' : List SpillEntry) (h' : Nat) (d' : Int),
      sweepGo x0 y0 kl ts e r s h d = some (e', r', s', h', d') →
      ∃ eΔ rΔ, e' = e ++ eΔ ∧ r' = r ++ rΔ ∧ s' = s ++ flaskSpills eΔ ∧
        List.Sublist (posList rΔ) (posList ts) := by
  intro ts
  induction ts with
  | nil =>
    intro e r s h d e' r' s' h' d' heq
    rw [sweepGo] at heq
    simp only [Option.some.injEq, Prod.mk.injEq] at heq
    obtain ⟨rfl, rfl, rfl, -, -⟩ := heq
    exact ⟨[], [], by simp, by simp, by simp [flaskSpills], by simp [posList]⟩
  | cons t ts ih =>
    intro e r s h d e' r' s' h' d' heq
    obtain ⟨xx, yy, tt⟩ := t
    rw [sweepGo] at heq
    by_cases hk : (kl.any fun q => x0 + xx == q.1 && y0 + yy == q.2) = true
    · rw [if_pos hk] at heq
      cases hx : tt.explode with
      | none =>
        rw [hx] at heq
        exact absurd heq (by simp)
      | some xa =>
        rw [hx] at heq
        dsimp only at heq
        rw [handle_of_explode hx] at heq
        dsimp only at heq
        obtain ⟨eΔ, rΔ, h1, h2, h3, h4⟩ := ih _ _ _ _ _ _ _ _ _ _ heq
        refine ⟨(xx, yy, tt) :: eΔ, convContrib tt xx yy ++ rΔ, ?_, ?_, ?_, ?_⟩
        · rw [h1]; simp
        · rw [h2]; simp
        · rw [h3]
          show s ++ spillContrib tt xx yy ++ flaskSpills eΔ =
            s ++ (spillContrib tt xx yy ++ flaskSpills eΔ)
          simp
        · rw [posList_append, posList_cons]
          cases hco : convOpt tt with
          | none =>
            simp only [convContrib, hco, posList, List.map_nil, List.nil_append]
            exact h4.cons _
          | some tt2 =>
            simp only [convContrib, hco, posList, List.map_cons, List.map_nil,
              List.singleton_append]
            exact List.cons_sublist_cons.mpr h4
    · rw [if_neg hk] at heq
      obtain ⟨eΔ, rΔ, h1, h2, h3, h4⟩ := ih _ _ _ _ _ _ _ _ _ _ heq
      refine ⟨eΔ, (xx, yy, tt) :: rΔ, h1, ?_, h3, ?_⟩
      · rw [h2]; simp
      · rw [posList_cons, posList_cons]
        exact List.cons_sublist_cons.mpr h4

theorem explode_inv {b b' : Block} {e : List Tile} {h : Nat} {d : Int}
    (hb : b.explode = some (b', e, h, d)) :
    ∃ r s d0,
      sweepGo b.x b.y (detectKill b) b.tiles [] [] [] 0 0 = some (e, r, s, h, d0) ∧
      b' = ⟨b.x, b.y, applySpills b.x b.y r s⟩ ∧
      d = (if 12 < e.length then d0 + Int.ofNat ((e.length - 9) / 9) else d0) := by
  unfold Block.explode at hb
  cases hsw : sweepGo b.x b.y (detectKill b) b.tiles [] [] [] 0 0 with
  | none =>
    rw [hsw] at hb
    simp at hb
  | some out =>
    obtain ⟨e1, r1, s1, h1, d1⟩ := out
    rw [hsw] at hb
    simp only [Option.some.injEq, Prod.mk.injEq] at hb
    obtain ⟨hb1, hb2, hb3, hb4⟩ := hb
    subst hb2
    subst hb3
    exact ⟨r1, s1, d1, rfl, hb1.symm, hb4.symm⟩

/-! Lemmas about Block::collide and position uniqueness. -/

theorem collideStep_fst (b1 b2 : Block) (acc : List Tile × List Tile) (t : Tile) :
    (Block.collideStep b1 b2 acc t).1 = acc.1 ∨
    ∃ tt', (Block.collideStep b1 b2 acc t).1 = acc.1 ++ [(t.1, t.2.1, tt')] := by
  unfold Block.collideStep
  dsimp only
  cases hat : b2.atPos (b1.x + t.1) (b1.y + t.2.1) with
  | none => exact Or.inr ⟨t.2.2, rfl⟩
  | some tt2 =>
    dsimp only
    rw [if_pos (show TileType.collides t.2.2 tt2 = true from rfl)]
    dsimp only
    cases hc : (TileType.collide t.2.2 tt2).1 with
    | none => exact Or.inl rfl
    | some ntt1 => exact Or.inr ⟨ntt1, rfl⟩

theorem collideStep_snd_nodup (b1 b2 : Block) (acc : List Tile × List Tile)
    (t : Tile) (h : (posList acc.2).Nodup) :
    (posList (Block.collideStep b1 b2 acc t).2).Nodup := by
  unfold Block.collideStep
  dsimp only
  cases hat : b2.atPos (b1.x + t.1) (b1.y + t.2.1) with
  | none => exact h
  | some tt2 =>
    dsimp only
    rw [if_pos (show TileType.collides t.2.2 tt2 = true from rfl)]
    dsimp only
    have hf : (posList (acc.2.filter fun u =>
        !(b2.x + u.1 == b1.x + t.1 && b2.y + u.2.1 == b1.y + t.2.1))).Nodup :=
      List.Nodup.sublist (List.Sublist.map _ (List.filter_sublist _)) h
    cases hc : (TileType.collide t.2.2 tt2).2 with
    | none => exact hf
    | some ntt2 =>
      rw [posList_append]
      apply List.Nodup.append hf (by simp [posList])
      intro p hp hq
      simp only [posList, List.map_cons, List.map_nil, List.mem_singleton] at hq
      subst hq
      unfold posList at hp
      obtain ⟨u, hu, hup⟩ := List.mem_map.mp hp
      have hcond := (List.mem_filter.mp hu).2
      have h1 : u.1 = b1.x + t.1 - b2.x := congrArg Prod.fst hup
      have h2 : u.2.1 = b1.y + t.2.1 - b2.y := congrArg Prod.snd hup
      simp at hcond
      omega

theorem collide_fold_snd (b1 b2 : Block) :
    ∀ (ts : List Tile) (acc : List Tile × List Tile), (posList acc.2).Nodup →
      (posList (ts.foldl (Block.collideStep b1 b2) acc).2).Nodup := by
  intro ts
  induction ts with
  | nil =>
    intro acc h
    exact h
  | cons t ts ih =>
    intro acc h
    exact ih _ (collideStep_snd_nodup b1 b2 acc t h)

theorem collide_fold_fst (b1 b2 : Block) :
    ∀ (ts : List Tile) (acc : List Tile × List Tile),
      (posList acc.1).Nodup → (posList ts).Nodup →
      (∀ p ∈ posList acc.1, p ∉ posList ts) →
      (posList (ts.foldl (Block.collideStep b1 b2) acc).1).Nodup := by
  intro ts
  induction ts with
  | nil =>
    intro acc h _ _
    exact h
  | cons t ts ih =>
    intro acc h hts hdis
    rw [posList_cons] at hts
    have hts' : (posList ts).Nodup := (List.nodup_cons.mp hts).2
    have hthead : (t.1, t.2.1) ∉ posList ts := (List.nodup_cons.mp hts).1
    rw [List.foldl_cons]
    rcases collideStep_fst b1 b2 acc t with hstep | ⟨tt', hstep⟩
    · apply ih _ (by rw [hstep]; exact h) hts'
      intro p hp
      rw [hstep] at hp
      have hni := hdis p hp
      intro hmem
      exact hni (by rw [posList_cons]; exact List.mem_cons_of_mem _ hmem)
    · apply ih _ ?_ hts' ?_
      · rw [hstep, posList_append]
        apply List.Nodup.append h (by simp [posList])
        intro p hp hpq
        simp only [posList, List.map_cons, List.map_nil,
          List.mem_singleton] at hpq
        subst hpq
        exact hdis _ hp (by rw [posList_cons]; exact List.mem_cons_self _ _)
      · intro p hp
        rw [hstep, posList_append] at hp
        rcases List.mem_append.mp hp with hp1 | hp1
        · have hni := hdis p hp1
          intro hmem
          exact hni (by rw [posList_cons]; exact List.mem_cons_of_mem _ hmem)
        · simp only [posList, List.map_cons, List.map_nil,
            List.mem_singleton] at hp1
          subst hp1
          exact hthead

theorem blockCollide_unique (b1 b2 : Block) (h1 : b1.uniquePos)
    (h2 : b2.uniquePos) :
    (Block.collide b1 b2).1.uniquePos ∧ (Block.collide b1 b2).2.uniquePos := by
  unfold Block.collide Block.uniquePos
  dsimp only
  constructor
  · exact collide_fold_fst b1 b2 b1.tiles ([], b2.tiles)
      (by simp [posList]) h1 (by simp [posList])
  · exact collide_fold_snd b1 b2 b1.tiles ([], b2.tiles) h2

/-! Lemmas about Block::drop and Block::explode position uniqueness. -/

theorem posList_dropped (ddx ddy : Int) : ∀ ts : List Tile,
    posList (ts.filterMap (fun t => (TileType.drop t.2.2).map
      (fun ntt => (t.1 + ddx, t.2.1 + ddy, ntt)))) =
    (posList ts).map (fun p => (p.1 + ddx, p.2 + ddy)) := by
  intro ts
  induction ts with
  | nil => rfl
  | cons t ts ih =>
    cases htt : TileType.drop t.2.2 with
    | none =>
      have hs := drop_isSome t.2.2
      rw [htt] at hs
      simp at hs
    | some ntt =>
      simp only [List.filterMap_cons, htt, Option.map_some']
      rw [posList_cons]
      simp only [posList, List.map_cons] at ih ⊢
      rw [ih]

theorem drop_unique (self dest bd : Block) (h2 : dest.uniquePos)
    (h1 : self.uniquePos)
    (h : (self.intersects bd || self.intersects dest) = false) :
    (Block.drop self dest bd).2.uniquePos := by
  have hnd : self.intersects dest = false := (Bool.or_eq_false_iff.mp h).2
  unfold Block.drop
  rw [if_neg (by rw [h]; simp)]
  unfold Block.uniquePos
  dsimp only
  rw [posList_append, posList_dropped]
  apply List.Nodup.append h2
  · apply List.Nodup.map ?inj h1
    intro a b hab
    have c1 : a.1 + (self.x - dest.x) = b.1 + (self.x - dest.x) :=
      congrArg Prod.fst hab
    have c2 : a.2 + (self.y - dest.y) = b.2 + (self.y - dest.y) :=
      congrArg Prod.snd hab
    have c3 : a.1 = b.1 := by omega
    have c4 : a.2 = b.2 := by omega
    exact Prod.ext c3 c4
  · intro p hp hq
    obtain ⟨q, hq1, hq2⟩ := List.mem_map.mp hq
    unfold posList at hq1
    obtain ⟨t, ht, htq⟩ := List.mem_map.mp hq1
    have hnone : dest.atPos (self.x + t.1) (self.y + t.2.1) = none := by
      cases hcc : dest.atPos (self.x + t.1) (self.y + t.2.1) with
      | none => rfl
      | some tt =>
        have hi : self.intersects dest = true := by
          unfold Block.intersects
          rw [List.any_eq_true]
          exact ⟨t, ht, by rw [hcc]; rfl⟩
        rw [hnd] at hi
        simp at hi
    unfold Block.atPos at hnone
    rw [tilesAt_eq_none_iff] at hnone
    unfold posList at hp
    obtain ⟨u, hu, hup⟩ := List.mem_map.mp hp
    have hcon := hnone u hu
    have c1 : u.1 = p.1 := congrArg Prod.fst hup
    have c2 : u.2.1 = p.2 := congrArg Prod.snd hup
    have c3 : q.1 + (self.x - dest.x) = p.1 := congrArg Prod.fst hq2
    have c4 : q.2 + (self.y - dest.y) = p.2 := congrArg Prod.snd hq2
    have c5 : t.1 = q.1 := congrArg Prod.fst htq
    have c6 : t.2.1 = q.2 := congrArg Prod.snd htq
    exact hcon ⟨by omega, by omega⟩

theorem explode_unique {b b' : Block} {e : List Tile} {h : Nat} {d : Int}
    (hx : b.x = 0) (hy : b.y = 0) (hu : b.uniquePos)
    (hb : b.explode = some (b', e, h, d)) : b'.uniquePos := by
  obtain ⟨r, s, d0, hsw, hb', -⟩ := explode_inv hb
  rw [hx, hy] at hsw hb'
  obtain ⟨eΔ, rΔ, h1, h2, h3, h4⟩ :=
    sweepGo_split 0 0 (detectKill b) b.tiles [] [] [] 0 0 e r s h d0 hsw
  have hr : (posList r).Nodup := by
    rw [h2]
    simp only [List.nil_append]
    exact List.Nodup.sublist h4 hu
  rw [hb']
  unfold Block.uniquePos
  dsimp only
  exact applySpills_nodup s r hr

/-- C4 (amended): the tile-uniqueness invariant is preserved by both sides
of Block::collide, by the destination of a successful Block::drop, and by
Block::explode (spillage insertions included) when the exploding playfield
sits at anchor (0, 0) — the anchor at which the game always keeps its
playfield. -/
theorem unique_positions_preserved :
    (∀ b1 b2 : Block, b1.uniquePos → b2.uniquePos →
      (Block.collide b1 b2).1.uniquePos ∧ (Block.collide b1 b2).2.uniquePos) ∧
    (∀ self dest bd : Block, self.uniquePos → dest.uniquePos →
      (self.intersects bd || self.intersects dest) = false →
      (Block.drop self dest bd).2.uniquePos) ∧
    (∀ (b b' : Block) (e : List Tile) (h : Nat) (d : Int),
      b.x = 0 → b.y = 0 → b.uniquePos →
      b.explode = some (b', e, h, d) → b'.uniquePos) :=
  ⟨fun b1 b2 h1 h2 => blockCollide_unique b1 b2 h1 h2,
   fun self dest bd h1 h2 h => drop_unique self dest bd h2 h1 h,
   fun _ _ _ _ _ hx hy hu hb => explode_unique hx hy hu hb⟩

/-- C4 (counterexample): with the playfield anchored at (5, 5) the spill
insertion of Block::explode checks emptiness of the queued offset
coordinates as if they were absolute ones, so a unique-position playfield
explodes into one with two tiles at offset (2, 0). -/
theorem unique_positions_cex :
    cexBlock.uniquePos ∧ cexBlock.x = 5 ∧ cexBlock.y = 5 ∧
    ¬ cexAfter.uniquePos :=
  ⟨by decide, rfl, rfl, by decide⟩

/-- Witness for the amended C4: collide on two overlapping one-tile blocks,
explode on the flask playfield B0, and a successful drop into an occupied
destination. -/
theorem unique_positions_preserved_witness :
    ((Block.mk 0 0 [(0, 0, .killer 2)]).uniquePos ∧
      (Block.mk 0 0 [(0, 0, .plain 0)]).uniquePos ∧
      (Block.collide (Block.mk 0 0 [(0, 0, .killer 2)])
        (Block.mk 0 0 [(0, 0, .plain 0)])).1.uniquePos ∧
      (Block.collide (Block.mk 0 0 [(0, 0, .killer 2)])
        (Block.mk 0 0 [(0, 0, .plain 0)])).2.uniquePos) ∧
    (B0.uniquePos ∧ B0.explode = some (B0After, B0.tiles, 9, 0) ∧
      B0After.uniquePos) ∧
    (((Block.mk 3 3 [(0, 0, .plain 2)]).intersects (Block.mk 0 0 []) ||
       (Block.mk 3 3 [(0, 0, .plain 2)]).intersects
         (Block.mk 0 0 [(0, 0, .plain 0)])) = false ∧
      (Block.drop (Block.mk 3 3 [(0, 0, .plain 2)])
        (Block.mk 0 0 [(0, 0, .plain 0)]) (Block.mk 0 0 [])).2.uniquePos) :=
  ⟨⟨by decide, by decide,
    (unique_positions_preserved.1 _ _ (by decide) (by decide)).1,
    (unique_positions_preserved.1 _ _ (by decide) (by decide)).2⟩,
   ⟨by decide, by decide,
    unique_positions_preserved.2.2 B0 B0After B0.tiles 9 0 rfl rfl
      (by decide) (by decide)⟩,
   ⟨by decide,
    unique_positions_preserved.2.1 _ _ _ (by decide) (by decide) (by decide)⟩⟩

/-- C2 (amended): when the playfield's anchor is (0, 0) — the anchor at
which the game always keeps it — the queue of spills produced by one
explosion cycle is exactly the five-position neighbourhood of every
exploded flask, in exploded order; the post-sweep tiles survive unchanged
as a whole; every tile inserted after the sweep is a Spillage at a queued
position that was empty at its insertion time: its position holds neither
a post-sweep survivor nor any other inserted spillage (the inserted
positions are pairwise distinct), and its liquid is that of the first
queued spill at that position; and every queued spill position ends the
cycle holding some tile. -/
theorem explode_spill_resolution (b : Block) (hx : b.x = 0) (hy : b.y = 0)
    (b' : Block) (e : List Tile) (h : Nat) (d : Int)
    (hb : b.explode = some (b', e, h, d)) :
    ∃ r added d0,
      sweepGo 0 0 (detectKill b) b.tiles [] [] [] 0 0 =
        some (e, r, flaskSpills e, h, d0) ∧
      b'.tiles = r ++ added ∧
      (posList added).Nodup ∧
      (∀ t ∈ added, ∃ l : LiquidType, t.2.2 = TileType.spillage l ∧
        firstSpillAt (flaskSpills e) t.1 t.2.1 = some l ∧
        (t.1, t.2.1) ∉ posList r) ∧
      (∀ q ∈ flaskSpills e, (q.1, q.2.1) ∉ posList r →
        ∃ l : LiquidType, (q.1, q.2.1, TileType.spillage l) ∈ added) ∧
      (∀ q ∈ flaskSpills e, ∃ tt, (q.1, q.2.1, tt) ∈ b'.tiles) := by
  obtain ⟨r, s, d0, hsw, hb', -⟩ := explode_inv hb
  rw [hx, hy] at hsw hb'
  obtain ⟨eΔ, rΔ, h1, h2, h3, h4⟩ :=
    sweepGo_split 0 0 (detectKill b) b.tiles [] [] [] 0 0 e r s h d0 hsw
  simp only [List.nil_append] at h1 h3
  subst h1
  subst h3
  have hbt : b'.tiles = applySpills 0 0 r (flaskSpills e) := by rw [hb']
  obtain ⟨added, haeq, hnodup, hamem⟩ := applySpills_split_zero (flaskSpills e) r
  have hcov : ∀ q ∈ flaskSpills e, ∃ tt, (q.1, q.2.1, tt) ∈ b'.tiles := by
    intro q hq
    obtain ⟨tt, htt⟩ := applySpills_mem_of_spill (flaskSpills e) r q hq
    exact ⟨tt, by rw [hbt]; exact htt⟩
  refine ⟨r, added, d0, hsw, by rw [hbt, haeq], hnodup, hamem, ?_, hcov⟩
  intro q hq hnr
  obtain ⟨tt, htt⟩ := hcov q hq
  rw [hbt, haeq] at htt
  rcases List.mem_append.mp htt with hmem | hmem
  · exact absurd (List.mem_map.mpr ⟨(q.1, q.2.1, tt), hmem, rfl⟩) hnr
  · obtain ⟨l, hl1, -, -⟩ := hamem _ hmem
    have htt' : tt = TileType.spillage l := hl1
    refine ⟨l, ?_⟩
    rw [← htt']
    exact hmem

/-- C2 (counterexample): the claim promises correct spill placement
regardless of the playfield's anchor, but with the anchor at (5, 5) the
spill insertion passes offset coordinates to the absolute-frame lookup
self.at: exploding cexBlock leaves offset (2, 0) — one of the flask's five
spill positions, already occupied by a surviving Permanent tile after the
sweep — holding a second, Spillage(Acid), tile. -/
theorem explode_spill_cex :
    cexBlock.x = 5 ∧ cexBlock.y = 5 ∧
    ((2 : Int), (0 : Int), TileType.permanent) ∈ cexAfter.tiles ∧
    ((2 : Int), (0 : Int), TileType.spillage .acid) ∈ cexAfter.tiles :=
  ⟨rfl, rfl, by decide, by decide⟩

/-- Witness for the amended C2 at the flask playfield B0. -/
theorem explode_spill_resolution_witness :
    (B0.x = 0 ∧ B0.y = 0 ∧ B0.explode = some (B0After, B0.tiles, 9, 0)) ∧
    (∃ r added d0,
      sweepGo 0 0 (detectKill B0) B0.tiles [] [] [] 0 0 =
        some (B0.tiles, r, flaskSpills B0.tiles, 9, d0) ∧
      B0After.tiles = r ++ added ∧
      (posList added).Nodup ∧
      (∀ t ∈ added, ∃ l : LiquidType, t.2.2 = TileType.spillage l ∧
        firstSpillAt (flaskSpills B0.tiles) t.1 t.2.1 = some l ∧
        (t.1, t.2.1) ∉ posList r) ∧
      (∀ q ∈ flaskSpills B0.tiles, (q.1, q.2.1) ∉ posList r →
        ∃ l : LiquidType, (q.1, q.2.1, TileType.spillage l) ∈ added) ∧
      (∀ q ∈ flaskSpills B0.tiles, ∃ tt, (q.1, q.2.1, tt) ∈ B0After.tiles)) :=
  ⟨⟨rfl, rfl, by decide⟩,
   explode_spill_resolution B0 rfl rfl B0After B0.tiles 9 0 (by decide)⟩

end Grido
